import Mathlib

/-!
SendGrid block hook: watermark advancement and notification.

A shallow embedding of `blocks.go`.  The program polls the SendGrid
suppression endpoint, posts one Slack webhook message per returned block and
advances `config.LastTimestamp`.

Conventions of the embedding

* Go `int` is the 64-bit signed integer of the amd64/arm64 targets: values are
  `Int`s in `[intMin, intMax]` and `+` wraps modulo 2^64 (`wrapInt`).
* The process-wide `config` variable and the observable effects of the program
  (webhook POSTs, API GETs, standard output) are threaded through `State`.
* Everything the program obtains from outside the repository (the clock
  formatting of `time.Time.String`, the string escaping of `encoding/json`,
  the outcome of each HTTP call, JSON decoding of the response body) is a
  field of `Env`.
-/

namespace BlockHook

/-! ## Go integers -/

/-- Smallest value of a Go `int` (64 bit). -/
def intMin : Int := -9223372036854775808

/-- Largest value of a Go `int` (64 bit). -/
def intMax : Int := 9223372036854775807

/-- Wrap-around (modulo 2^64) of a mathematical integer into the range of
a Go `int`: the result of a Go arithmetic operation whose exact value is `x`. -/
def wrapInt (x : Int) : Int :=
  (x + 9223372036854775808) % 18446744073709551616 - 9223372036854775808

/-- The integer is a value a Go `int` variable can hold. -/
def InRange (x : Int) : Prop := intMin ≤ x ∧ x ≤ intMax

instance (x : Int) : Decidable (InRange x) := by
  unfold InRange; infer_instance

/-! ## Data model (`blocks.go` lines 17-37) -/

/-- The `Config` struct. -/
structure Config where
  Interval : Int
  WebhookURI : String
  SendgridToken : String
  LastTimestamp : Int
  deriving DecidableEq, Repr

/-- The `SlackWebhookBody` struct: the JSON body sent to the Slack webhook. -/
structure SlackWebhookBody where
  Text : String
  deriving DecidableEq, Repr

/-- The `Block` struct: a SendGrid block object. -/
structure Block where
  Created : Int
  Email : String
  Reason : String
  Status : String
  deriving DecidableEq, Repr

/-! ## The world outside the program -/

/-- A Go `error` value, with the three renderings the program prints:
`%s` (`Error()`), `%T` and `%#v`. -/
structure GoError where
  msg : String
  typeName : String
  goRepr : String
  deriving DecidableEq, Repr

/-- One call of `http.Post(url, contentType, body)`. -/
structure Post where
  url : String
  contentType : String
  body : String
  deriving DecidableEq, Repr

/-- One `GET` request handed to `client.Do`: its URL and `Authorization` header. -/
structure Get where
  url : String
  authorization : String
  deriving DecidableEq, Repr

/-- What the program obtains from the standard library and the network.
`postErr n` is the error (if any) returned by the `n`-th `http.Post` of the
run, `fetch n req` the outcome of the `n`-th `client.Do`: a transport error or
the response body. -/
structure Env where
  timeString : Int → String
  jsonQuote : String → String
  postErr : Nat → Option GoError
  fetch : Nat → Get → Except GoError String
  decode : String → Except GoError (List Block)

/-- The mutable state of the process: the global `config` and the trace of
effects performed so far (oldest first). -/
structure State where
  config : Config
  posts : List Post
  gets : List Get
  stdout : List String
  deriving DecidableEq, Repr

/-! ## Library fragments used by the program -/

/-- The fragment of `fmt.Sprintf` the program uses: a format whose only verb is
`%s`, applied to string operands.  While operands remain, every `%s` is
replaced by the next operand, verbatim; every other character is copied. -/
def sprintfAux : List Char → List String → List Char
  | '%' :: 's' :: rest, a :: args => a.data ++ sprintfAux rest args
  | c :: rest, args => c :: sprintfAux rest args
  | [], _ => []

/-- The function `fmt.Sprintf` on `%s` formats. -/
def Sprintf (format : String) (args : List String) : String :=
  ⟨sprintfAux format.data args⟩

/-- The function `strconv.Itoa`: decimal rendering of an `int`. -/
def Itoa (i : Int) : String := toString i

/-- The function `json.Marshal` on a `SlackWebhookBody`: a JSON object whose
single member is named by the struct tag `json:"text"`. -/
def Marshal (env : Env) (s : SlackWebhookBody) : String :=
  "\x7b\"text\":" ++ env.jsonQuote s.Text ++ "\x7d"

/-! ## The program -/

/-- The local `message` of `sendMessage` (lines 42-43). -/
def message (env : Env) (block : Block) : String :=
  let date := env.timeString block.Created
  Sprintf "Failed to send mail:\nCreated at: %s\nEmail: %s \nReason: %s\nStatus: %s\n"
    [date, block.Email, block.Reason, block.Status]

/-- The function `sendMessage` (lines 40-53): send a single block to the Slack
webhook; a delivery error is printed and otherwise ignored. -/
def sendMessage (env : Env) (block : Block) (s : State) : State :=
  let body : SlackWebhookBody := ⟨message env block⟩
  let b := Marshal env body
  let err := env.postErr s.posts.length
  let s1 := { s with posts := s.posts ++ [⟨s.config.WebhookURI, "application/json", b⟩] }
  match err with
  | some e => { s1 with stdout := s1.stdout ++ [e.msg ++ "\n"] }
  | none => s1

/-- The function `checkBlocks` (lines 56-63): iterate through the blocks, send
the messages and save the new latest timestamp. -/
def checkBlocks (env : Env) : List Block → State → State
  | [], s => s
  | block :: rest, s =>
    let s1 := sendMessage env block s
    let s2 :=
      if block.Created > s1.config.LastTimestamp then
        { s1 with config := { s1.config with LastTimestamp := wrapInt (block.Created + 1) } }
      else s1
    checkBlocks env rest s2

/-- The request `getBlocks` builds (lines 67-70): the suppression endpoint with
`start_time` set to the current watermark, and the bearer token. -/
def apiRequest (c : Config) : Get :=
  let URL := "https://api.sendgrid.com/v3/suppression/blocks?start_time=" ++ Itoa c.LastTimestamp
  ⟨URL, "Bearer " ++ c.SendgridToken⟩

/-- The function `getBlocks` (lines 66-93): query the API from the current
watermark, parse the blocks and call `checkBlocks`.  `http.NewRequest` cannot
fail for the method `GET` and this URL, so that branch is not represented. -/
def getBlocks (env : Env) (s : State) : State :=
  let req := apiRequest s.config
  let s1 := { s with gets := s.gets ++ [req] }
  match env.fetch s.gets.length req with
  | .error err =>
    { s1 with stdout := s1.stdout ++ ["HTTP Call failed: " ++ err.msg ++ "\n"] }
  | .ok resBody =>
    match env.decode resBody with
    | .error err =>
      { s1 with stdout := s1.stdout ++
          ["Failed parsing json: " ++ err.typeName ++ "\n" ++ err.msg ++ "\n" ++
            err.goRepr ++ "\n"] }
    | .ok blocks => checkBlocks env blocks s1

/-- The polling loop of `main` (lines 120-122), cut after `n` ticks. -/
def cycles (env : Env) : Nat → State → State
  | 0, s => s
  | n + 1, s => cycles env n (getBlocks env s)

/-! ## Auxiliary notions used in the statements -/

/-- The watermark rule of `checkBlocks` on the bare `Created` values. -/
def advance (w : Int) (created : List Int) : Int :=
  created.foldl (fun w c => if c > w then wrapInt (c + 1) else w) w

/-- The webhook POST that `sendMessage` performs for a block. -/
def postOf (env : Env) (uri : String) (block : Block) : Post :=
  ⟨uri, "application/json", Marshal env ⟨message env block⟩⟩

/-- The records of a batch that `checkBlocks` processes before it reaches the
first record whose `Created` value is `M`. -/
def beforeFirst (M : Int) (blocks : List Block) : List Block :=
  blocks.takeWhile (fun b => b.Created != M)

/-- Substring containment on strings. -/
def Contains (hay needle : String) : Prop := needle.data <:+: hay.data

/-! ## Concrete inputs for the examples -/

/-- An environment in which every HTTP call succeeds and the API answers with
the given blocks. -/
def envOk (blocks : List Block) : Env where
  timeString := fun c => "t" ++ Itoa c
  jsonQuote := fun t => "\"" ++ t ++ "\""
  postErr := fun _ => none
  fetch := fun _ _ => .ok "body"
  decode := fun _ => .ok blocks

/-- An environment in which the API call fails in transport. -/
def envDown : Env where
  timeString := fun c => "t" ++ Itoa c
  jsonQuote := fun t => "\"" ++ t ++ "\""
  postErr := fun _ => none
  fetch := fun _ _ => .error ⟨"dial tcp: i/o timeout", "*url.Error", "&url.Error"⟩
  decode := fun _ => .ok []

/-- An environment in which the API answers with a body that is not a JSON
array of blocks. -/
def envGarbled : Env where
  timeString := fun c => "t" ++ Itoa c
  jsonQuote := fun t => "\"" ++ t ++ "\""
  postErr := fun _ => none
  fetch := fun _ _ => .ok "<html>"
  decode := fun _ =>
    .error ⟨"invalid character", "*json.SyntaxError", "&json.SyntaxError"⟩

/-- An environment in which the second webhook POST of the run fails and every
other HTTP call succeeds. -/
def envFlaky : Env where
  timeString := fun c => "t" ++ Itoa c
  jsonQuote := fun t => "\"" ++ t ++ "\""
  postErr := fun n => if n = 1 then some ⟨"connection refused", "*url.Error", "&url.Error"⟩ else none
  fetch := fun _ _ => .ok "body"
  decode := fun _ => .ok []

/-- A block with the given creation time. -/
def blk (c : Int) : Block := ⟨c, "a@x.com", "bounce", "bounced"⟩

/-- An initial state with the given watermark and no effects performed. -/
def st (w : Int) : State := ⟨⟨5, "https://hook", "token", w⟩, [], [], []⟩

/-! ## Basic facts -/

theorem wrapInt_of_inRange {x : Int} (h1 : intMin ≤ x) (h2 : x ≤ intMax) : wrapInt x = x := by
  unfold wrapInt
  unfold intMin at h1
  unfold intMax at h2
  omega

theorem wrapInt_inRange (x : Int) : InRange (wrapInt x) := by
  unfold InRange wrapInt intMin intMax
  omega

theorem advance_nil (w : Int) : advance w [] = w := rfl

theorem advance_cons (w c : Int) (cs : List Int) :
    advance w (c :: cs) = advance (if c > w then wrapInt (c + 1) else w) cs := rfl

theorem advance_append (w : Int) (xs ys : List Int) :
    advance w (xs ++ ys) = advance (advance w xs) ys := by
  unfold advance
  rw [List.foldl_append]

/-- One step of the rule when the increment does not overflow. -/
theorem step_eq {w c : Int} (hw : intMin ≤ w) (hc : c < intMax) :
    (if c > w then wrapInt (c + 1) else w) = if c > w then c + 1 else w := by
  split
  · rename_i h
    apply wrapInt_of_inRange
    · omega
    · omega
  · rfl

theorem step_ge_min {w c : Int} (hw : intMin ≤ w) :
    intMin ≤ (if c > w then wrapInt (c + 1) else w) := by
  split
  · exact (wrapInt_inRange _).1
  · exact hw

theorem advance_ge_min : ∀ (cs : List Int) (w : Int), intMin ≤ w → intMin ≤ advance w cs
  | [], _, hw => hw
  | c :: cs, w, hw => by
    rw [advance_cons]
    exact advance_ge_min cs _ (step_ge_min hw)

theorem advance_fixed : ∀ (cs : List Int) (w : Int), (∀ c ∈ cs, c ≤ w) → advance w cs = w
  | [], _, _ => rfl
  | c :: cs, w, h => by
    have hc : c ≤ w := h c (List.mem_cons_self _ _)
    rw [advance_cons, if_neg (by omega)]
    exact advance_fixed cs w (fun x hx => h x (List.mem_cons_of_mem _ hx))

theorem advance_mono : ∀ (cs : List Int) (w : Int), intMin ≤ w → (∀ c ∈ cs, c < intMax) →
    w ≤ advance w cs
  | [], _, _, _ => le_refl _
  | c :: cs, w, hw, h => by
    have hc : c < intMax := h c (List.mem_cons_self _ _)
    have ih := advance_mono cs (if c > w then wrapInt (c + 1) else w) (step_ge_min hw)
      (fun x hx => h x (List.mem_cons_of_mem _ hx))
    rw [advance_cons]
    rw [step_eq hw hc] at ih ⊢
    by_cases hcw : c > w
    · rw [if_pos hcw] at ih ⊢
      omega
    · rw [if_neg hcw] at ih ⊢
      exact ih

theorem advance_ge_all : ∀ (cs : List Int) (w : Int), intMin ≤ w → (∀ c ∈ cs, c < intMax) →
    ∀ c ∈ cs, c ≤ advance w cs
  | [], _, _, _ => fun c hc => by simp at hc
  | c :: cs, w, hw, h => by
    intro x hx
    have hc : c < intMax := h c (List.mem_cons_self _ _)
    have hrest : ∀ y ∈ cs, y < intMax := fun y hy => h y (List.mem_cons_of_mem _ hy)
    rw [advance_cons]
    rcases List.mem_cons.1 hx with rfl | hx
    · have hm := advance_mono cs (if x > w then wrapInt (x + 1) else w) (step_ge_min hw) hrest
      rw [step_eq hw hc] at hm ⊢
      by_cases hxw : x > w
      · rw [if_pos hxw] at hm ⊢
        omega
      · rw [if_neg hxw] at hm ⊢
        omega
    · exact advance_ge_all cs _ (step_ge_min hw) hrest x hx

theorem advance_mem : ∀ (cs : List Int) (w : Int),
    advance w cs = w ∨ ∃ c ∈ cs, advance w cs = wrapInt (c + 1)
  | [], _ => Or.inl rfl
  | c :: cs, w => by
    rw [advance_cons]
    rcases advance_mem cs (if c > w then wrapInt (c + 1) else w) with h | ⟨x, hx, h⟩
    · by_cases hcw : c > w
      · rw [if_pos hcw] at h ⊢
        exact Or.inr ⟨c, List.mem_cons_self _ _, h⟩
      · rw [if_neg hcw] at h ⊢
        exact Or.inl h
    · exact Or.inr ⟨x, List.mem_cons_of_mem _ hx, h⟩

theorem advance_mem_succ : ∀ (cs : List Int) (w : Int), intMin ≤ w → (∀ c ∈ cs, c < intMax) →
    advance w cs = w ∨ ∃ c ∈ cs, advance w cs = c + 1
  | [], _, _, _ => Or.inl rfl
  | c :: cs, w, hw, h => by
    have hc : c < intMax := h c (List.mem_cons_self _ _)
    rw [advance_cons]
    rcases advance_mem_succ cs (if c > w then wrapInt (c + 1) else w) (step_ge_min hw)
      (fun x hx => h x (List.mem_cons_of_mem _ hx)) with e | ⟨x, hx, e⟩
    · rw [step_eq hw hc] at e ⊢
      by_cases hcw : c > w
      · rw [if_pos hcw] at e ⊢
        exact Or.inr ⟨c, List.mem_cons_self _ _, e⟩
      · rw [if_neg hcw] at e ⊢
        exact Or.inl e
    · exact Or.inr ⟨x, List.mem_cons_of_mem _ hx, e⟩

theorem advance_le_succ_max : ∀ (cs : List Int) (w M : Int), intMin ≤ w → M < intMax →
    (∀ c ∈ cs, c ≤ M) → w ≤ M + 1 → advance w cs ≤ M + 1
  | [], _, _, _, _, _, hw => hw
  | c :: cs, w, M, hw, hM, h, hwM => by
    have hc : c ≤ M := h c (List.mem_cons_self _ _)
    rw [advance_cons]
    apply advance_le_succ_max cs _ M (step_ge_min hw) hM
      (fun x hx => h x (List.mem_cons_of_mem _ hx))
    rw [step_eq hw (by omega)]
    split <;> omega

/-- The rule on a list that starts with the maximum `M`, entered with a
watermark that is not `M` and at most `M + 1`. -/
theorem advance_at_max (cs : List Int) (r M : Int) (hr : intMin ≤ r) (hM : M < intMax)
    (h : ∀ c ∈ cs, c ≤ M) (hle : r ≤ M + 1) (hne : r ≠ M) :
    advance r (M :: cs) = M + 1 := by
  rw [advance_cons, step_eq hr hM]
  by_cases hlt : M > r
  · rw [if_pos hlt]
    exact advance_fixed cs _ (fun y hy => by have := h y hy; omega)
  · rw [if_neg hlt]
    have e : r = M + 1 := by omega
    rw [e]
    exact advance_fixed cs _ (fun y hy => by have := h y hy; omega)

/-! ## Effects of the program on the state -/

theorem sendMessage_config (env : Env) (b : Block) (s : State) :
    (sendMessage env b s).config = s.config := by
  unfold sendMessage
  cases env.postErr s.posts.length <;> rfl

theorem sendMessage_posts (env : Env) (b : Block) (s : State) :
    (sendMessage env b s).posts = s.posts ++ [postOf env s.config.WebhookURI b] := by
  unfold sendMessage
  cases env.postErr s.posts.length <;> rfl

theorem sendMessage_gets (env : Env) (b : Block) (s : State) :
    (sendMessage env b s).gets = s.gets := by
  unfold sendMessage
  cases env.postErr s.posts.length <;> rfl

theorem checkBlocks_nil (env : Env) (s : State) : checkBlocks env [] s = s := rfl

theorem checkBlocks_cons (env : Env) (b : Block) (bs : List Block) (s : State) :
    checkBlocks env (b :: bs) s =
      checkBlocks env bs
        (if b.Created > (sendMessage env b s).config.LastTimestamp then
          { sendMessage env b s with
            config := { (sendMessage env b s).config with
              LastTimestamp := wrapInt (b.Created + 1) } }
        else sendMessage env b s) := rfl

theorem checkBlocks_append (env : Env) : ∀ (xs ys : List Block) (s : State),
    checkBlocks env (xs ++ ys) s = checkBlocks env ys (checkBlocks env xs s)
  | [], _, _ => rfl
  | x :: xs, ys, s => by
    rw [List.cons_append, checkBlocks_cons, checkBlocks_cons]
    exact checkBlocks_append env xs ys _

/-- The configuration after `checkBlocks`: only `LastTimestamp` is touched, and
its new value is given by the watermark rule on the `Created` values. -/
theorem checkBlocks_config (env : Env) : ∀ (blocks : List Block) (s : State),
    (checkBlocks env blocks s).config =
      { s.config with
        LastTimestamp := advance s.config.LastTimestamp (blocks.map (fun b => b.Created)) }
  | [], _ => rfl
  | b :: bs, s => by
    rw [checkBlocks_cons, checkBlocks_config env bs, List.map_cons, advance_cons,
      sendMessage_config]
    by_cases h : b.Created > s.config.LastTimestamp
    · simp only [if_pos h, sendMessage_config]
    · simp only [if_neg h, sendMessage_config]

theorem checkBlocks_watermark (env : Env) (blocks : List Block) (s : State) :
    (checkBlocks env blocks s).config.LastTimestamp =
      advance s.config.LastTimestamp (blocks.map (fun b => b.Created)) := by
  rw [checkBlocks_config]

theorem checkBlocks_uri (env : Env) (blocks : List Block) (s : State) :
    (checkBlocks env blocks s).config.WebhookURI = s.config.WebhookURI := by
  rw [checkBlocks_config]

theorem checkBlocks_posts (env : Env) : ∀ (blocks : List Block) (s : State),
    (checkBlocks env blocks s).posts =
      s.posts ++ blocks.map (postOf env s.config.WebhookURI)
  | [], s => by simp [checkBlocks_nil]
  | b :: bs, s => by
    rw [checkBlocks_cons, checkBlocks_posts env bs, sendMessage_config]
    by_cases h : b.Created > s.config.LastTimestamp
    · simp only [if_pos h, sendMessage_posts, List.map_cons, List.append_assoc,
        List.singleton_append]
    · simp only [if_neg h, sendMessage_config, sendMessage_posts, List.map_cons,
        List.append_assoc, List.singleton_append]

theorem checkBlocks_gets (env : Env) : ∀ (blocks : List Block) (s : State),
    (checkBlocks env blocks s).gets = s.gets
  | [], _ => rfl
  | b :: bs, s => by
    rw [checkBlocks_cons, checkBlocks_gets env bs]
    by_cases h : b.Created > (sendMessage env b s).config.LastTimestamp
    · simp only [if_pos h, sendMessage_gets]
    · simp only [if_neg h, sendMessage_gets]

theorem mem_created {blocks : List Block} {c : Int}
    (h : c ∈ blocks.map (fun b => b.Created)) : ∃ b ∈ blocks, b.Created = c := by
  simpa using h

theorem created_lt {blocks : List Block} {M : Int} (h : ∀ b ∈ blocks, b.Created < M) :
    ∀ c ∈ blocks.map (fun b => b.Created), c < M := by
  intro c hc
  obtain ⟨b, hb, rfl⟩ := mem_created hc
  exact h b hb

theorem created_le {blocks : List Block} {M : Int} (h : ∀ b ∈ blocks, b.Created ≤ M) :
    ∀ c ∈ blocks.map (fun b => b.Created), c ≤ M := by
  intro c hc
  obtain ⟨b, hb, rfl⟩ := mem_created hc
  exact h b hb


/-! ## More facts about the watermark rule -/

theorem advance_inRange (cs : List Int) (w : Int) (hw : InRange w) :
    InRange (advance w cs) := by
  rcases advance_mem cs w with h | ⟨c, _, h⟩
  · rw [h]; exact hw
  · rw [h]; exact wrapInt_inRange _

theorem contains_append_right {h x : String} (t : String) (hx : Contains h x) :
    Contains (h ++ t) x := by
  obtain ⟨a, b, e⟩ := hx
  exact ⟨a, b ++ t.data, by rw [String.data_append, ← e]; simp⟩

theorem contains_self_right (a x : String) : Contains (a ++ x) x :=
  ⟨a.data, [], by simp [String.data_append]⟩

/-- The text of `message` in its fixed layout. -/
theorem message_eq (env : Env) (block : Block) :
    message env block =
      "Failed to send mail:\nCreated at: " ++ env.timeString block.Created ++
        "\nEmail: " ++ block.Email ++ " \nReason: " ++ block.Reason ++
        "\nStatus: " ++ block.Status ++ "\n" := by
  apply String.ext
  simp only [message, Sprintf, String.data_append]
  simp [sprintfAux]

theorem getBlocks_fetch_error (env : Env) (s : State) (err : GoError)
    (h : env.fetch s.gets.length (apiRequest s.config) = .error err) :
    getBlocks env s =
      { s with gets := s.gets ++ [apiRequest s.config],
               stdout := s.stdout ++ ["HTTP Call failed: " ++ err.msg ++ "\n"] } := by
  unfold getBlocks
  simp only [h]

theorem getBlocks_decode_error (env : Env) (s : State) (body : String) (err : GoError)
    (h : env.fetch s.gets.length (apiRequest s.config) = .ok body)
    (hd : env.decode body = .error err) :
    getBlocks env s =
      { s with gets := s.gets ++ [apiRequest s.config],
               stdout := s.stdout ++
                ["Failed parsing json: " ++ err.typeName ++ "\n" ++ err.msg ++ "\n" ++
                  err.goRepr ++ "\n"] } := by
  unfold getBlocks
  simp only [h, hd]

theorem getBlocks_ok (env : Env) (s : State) (body : String) (blocks : List Block)
    (h : env.fetch s.gets.length (apiRequest s.config) = .ok body)
    (hd : env.decode body = .ok blocks) :
    getBlocks env s = checkBlocks env blocks { s with gets := s.gets ++ [apiRequest s.config] } := by
  unfold getBlocks
  simp only [h, hd]

/-- Over one polling cycle the watermark stays a valid `int` and, as long as
the API never reports a block created at `intMax`, does not decrease. -/
theorem getBlocks_nondecreasing (env : Env) (s : State)
    (hw : InRange s.config.LastTimestamp)
    (henv : ∀ body bs, env.decode body = .ok bs → ∀ b ∈ bs, b.Created < intMax) :
    InRange (getBlocks env s).config.LastTimestamp ∧
      s.config.LastTimestamp ≤ (getBlocks env s).config.LastTimestamp := by
  cases hf : env.fetch s.gets.length (apiRequest s.config) with
  | error err => rw [getBlocks_fetch_error env s err hf]; exact ⟨hw, le_refl _⟩
  | ok body =>
    cases hd : env.decode body with
    | error err => rw [getBlocks_decode_error env s body err hf hd]; exact ⟨hw, le_refl _⟩
    | ok blocks =>
      rw [getBlocks_ok env s body blocks hf hd, checkBlocks_watermark]
      exact ⟨advance_inRange _ _ hw, advance_mono _ _ hw.1 (created_lt (henv body blocks hd))⟩

/-- Over any number of polling cycles the watermark does not decrease, as long
as the API never reports a block created at `intMax`. -/
theorem cycles_nondecreasing (env : Env)
    (henv : ∀ body bs, env.decode body = .ok bs → ∀ b ∈ bs, b.Created < intMax) :
    ∀ (n : Nat) (s : State), InRange s.config.LastTimestamp →
      s.config.LastTimestamp ≤ (cycles env n s).config.LastTimestamp
  | 0, _, _ => le_refl _
  | n + 1, s, hw => by
    have h1 := getBlocks_nondecreasing env s hw henv
    have h2 := cycles_nondecreasing env henv n (getBlocks env s) h1.1
    show s.config.LastTimestamp ≤ (cycles env n (getBlocks env s)).config.LastTimestamp
    omega


/-- The scenario of a failing webhook POST: with the second of three POSTs
failing, all three are attempted, the error is printed once, and the watermark
advances on all three records. -/
theorem flaky_run :
    (checkBlocks envFlaky [blk 1200, blk 1400, blk 1600] (st 1000)).posts.length = 3 ∧
    (checkBlocks envFlaky [blk 1200, blk 1400, blk 1600] (st 1000)).stdout =
      ["connection refused\n"] ∧
    (checkBlocks envFlaky [blk 1200, blk 1400, blk 1600] (st 1000)).config.LastTimestamp =
      1601 := by
  decide

theorem beforeFirst_cons_eq (M : Int) (b : Block) (bs : List Block) (h : b.Created = M) :
    beforeFirst M (b :: bs) = [] := by
  simp [beforeFirst, List.takeWhile_cons, h]

theorem beforeFirst_cons_ne (M : Int) (b : Block) (bs : List Block) (h : b.Created ≠ M) :
    beforeFirst M (b :: bs) = b :: beforeFirst M bs := by
  simp [beforeFirst, List.takeWhile_cons, h]

/-- The rule on a batch with maximum `M`: when the watermark reached just
before the first record with `Created = M` is not `M`, the result is `M + 1`. -/
theorem advance_first_max (M : Int) (hM : M < intMax) : ∀ (blocks : List Block) (w : Int),
    intMin ≤ w → w ≤ M + 1 → (∀ b ∈ blocks, b.Created ≤ M) → (∃ b ∈ blocks, b.Created = M) →
    advance w ((beforeFirst M blocks).map (fun b => b.Created)) ≠ M →
    advance w (blocks.map (fun b => b.Created)) = M + 1
  | [], _, _, _, _, hmem, _ => by
    obtain ⟨b, hb, _⟩ := hmem
    simp at hb
  | b :: bs, w, hw, hle, hmax, hmem, hrun => by
    have hb : b.Created ≤ M := hmax b (List.mem_cons_self _ _)
    have hrest : ∀ x ∈ bs, x.Created ≤ M := fun x hx => hmax x (List.mem_cons_of_mem _ hx)
    by_cases hbM : b.Created = M
    · rw [beforeFirst_cons_eq M b bs hbM, List.map_nil, advance_nil] at hrun
      rw [List.map_cons, hbM]
      exact advance_at_max _ w M hw hM (created_le hrest) hle hrun
    · rw [beforeFirst_cons_ne M b bs hbM, List.map_cons, advance_cons] at hrun
      rw [List.map_cons, advance_cons]
      have hmem1 : ∃ x ∈ bs, x.Created = M := by
        obtain ⟨x, hx, e⟩ := hmem
        rcases List.mem_cons.1 hx with rfl | hx
        · exact absurd e hbM
        · exact ⟨x, hx, e⟩
      apply advance_first_max M hM bs _ (step_ge_min hw) _ hrest hmem1 hrun
      rw [step_eq hw (by omega)]
      split <;> omega

/-! ## The claims -/

/-- C1, as stated, fails.  Three batches with pairwise distinct `Created`
values after which the watermark is not `max + 1`: the batch `[1500]` from
watermark 2000 leaves 2000; the batch `[3, 4]` from watermark 0 leaves 4; the
batch `[intMax]` from watermark 0 leaves `intMin`. -/
theorem watermark_ne_succ_max :
    (([blk 1500].map (fun b => b.Created)).Nodup ∧
      (checkBlocks (envOk []) [blk 1500] (st 2000)).config.LastTimestamp = 2000 ∧
      (2000 : Int) ≠ 1500 + 1) ∧
    (([blk 3, blk 4].map (fun b => b.Created)).Nodup ∧
      (checkBlocks (envOk []) [blk 3, blk 4] (st 0)).config.LastTimestamp = 4 ∧
      (4 : Int) ≠ 4 + 1) ∧
    (([blk intMax].map (fun b => b.Created)).Nodup ∧
      (checkBlocks (envOk []) [blk intMax] (st 0)).config.LastTimestamp = intMin ∧
      intMin ≠ intMax + 1) := by
  decide

/-- C1 (amended): for every initial watermark `w` that is a valid `int` and
every batch whose largest `Created` value `M` satisfies `M < intMax` and
`w <= M + 1` (that is `w < M`, `w = M` or `w = M + 1`), if the watermark is not
`M` at the moment `checkBlocks` reaches the first record with `Created = M`,
then the watermark after `checkBlocks` equals `M + 1`.  The `Created` values
need not be distinct. -/
theorem watermark_eq_succ_max (env : Env) (blocks : List Block) (s : State) (M : Int)
    (hw : InRange s.config.LastTimestamp)
    (hmem : ∃ b ∈ blocks, b.Created = M) (hmax : ∀ b ∈ blocks, b.Created ≤ M)
    (hnew : s.config.LastTimestamp ≤ M + 1) (hM : M < intMax)
    (hrun : (checkBlocks env (beforeFirst M blocks) s).config.LastTimestamp ≠ M) :
    (checkBlocks env blocks s).config.LastTimestamp = M + 1 := by
  rw [checkBlocks_watermark] at hrun ⊢
  exact advance_first_max M hM blocks _ hw.1 hnew hmax hmem hrun

/-- C1 (amended) on the two scenarios of the specification (watermark 1000 with
`[1500]` gives 1501, with `[1200, 1400]` gives 1401) and on batches that hold
the value `M - 1`: `[4, 3]` and `[2, 3, 4]` from 0 give 5, `[1400, 1399]` from
1000 gives 1401; and from watermark 1501 the batch `[1500]` leaves 1501. -/
theorem watermark_eq_succ_max_witness :
    (checkBlocks (envOk []) [blk 1500] (st 1000)).config.LastTimestamp = 1500 + 1 ∧
    (checkBlocks (envOk []) [blk 1200, blk 1400] (st 1000)).config.LastTimestamp = 1400 + 1 ∧
    (checkBlocks (envOk []) [blk 4, blk 3] (st 0)).config.LastTimestamp = 4 + 1 ∧
    (checkBlocks (envOk []) [blk 2, blk 3, blk 4] (st 0)).config.LastTimestamp = 4 + 1 ∧
    (checkBlocks (envOk []) [blk 1400, blk 1399] (st 1000)).config.LastTimestamp = 1400 + 1 ∧
    (checkBlocks (envOk []) [blk 1500] (st 1501)).config.LastTimestamp = 1500 + 1 :=
  ⟨watermark_eq_succ_max (envOk []) [blk 1500] (st 1000) 1500
      (by decide) (by decide) (by decide) (by decide) (by decide) (by decide),
   watermark_eq_succ_max (envOk []) [blk 1200, blk 1400] (st 1000) 1400
      (by decide) (by decide) (by decide) (by decide) (by decide) (by decide),
   watermark_eq_succ_max (envOk []) [blk 4, blk 3] (st 0) 4
      (by decide) (by decide) (by decide) (by decide) (by decide) (by decide),
   watermark_eq_succ_max (envOk []) [blk 2, blk 3, blk 4] (st 0) 4
      (by decide) (by decide) (by decide) (by decide) (by decide) (by decide),
   watermark_eq_succ_max (envOk []) [blk 1400, blk 1399] (st 1000) 1400
      (by decide) (by decide) (by decide) (by decide) (by decide) (by decide),
   watermark_eq_succ_max (envOk []) [blk 1500] (st 1501) 1500
      (by decide) (by decide) (by decide) (by decide) (by decide) (by decide)⟩

/-- C2 fails on the code.  From watermark 1000 the batch `[1000]` (one record,
`Created >= 1000`, as an inclusive `start_time=1000` query returns it) leaves the
watermark at 1000, so the record is not strictly below the new watermark; two
polling cycles against an API holding that record query `start_time=1000`
twice and post the same notification twice. -/
theorem refetch_at_watermark :
    (checkBlocks (envOk []) [blk 1000] (st 1000)).config.LastTimestamp = 1000 ∧
    ¬ (blk 1000).Created < (checkBlocks (envOk []) [blk 1000] (st 1000)).config.LastTimestamp ∧
    (apiRequest (checkBlocks (envOk []) [blk 1000] (st 1000)).config).url =
      "https://api.sendgrid.com/v3/suppression/blocks?start_time=1000" ∧
    (cycles (envOk [blk 1000]) 2 (st 1000)).posts =
      [postOf (envOk []) "https://hook" (blk 1000), postOf (envOk []) "https://hook" (blk 1000)] ∧
    (checkBlocks (envOk []) [blk 3, blk 4] (st 0)).config.LastTimestamp = 4 := by
  decide

/-- C3, as stated, fails: from watermark 1000 the batch `[1500, intMax]` moves
the watermark to 1501 and then, by overflow of `Created + 1`, back to `intMin`. -/
theorem watermark_moves_backward :
    (checkBlocks (envOk []) ([blk 1500, blk intMax].take 1) (st 1000)).config.LastTimestamp
      = 1501 ∧
    (checkBlocks (envOk []) [blk 1500, blk intMax] (st 1000)).config.LastTimestamp = intMin ∧
    ¬ (st 1000).config.LastTimestamp ≤
      (checkBlocks (envOk []) [blk 1500, blk intMax] (st 1000)).config.LastTimestamp := by
  decide

/-- C3 (amended): for every initial watermark `w` that is a valid `int` and
every batch (any order, any `Created` values below `intMax`, including values
`<= w`), the watermark after `checkBlocks` is `>= w`, the same holds after
every initial segment of the batch, and the watermark after a longer initial
segment is never below the watermark after a shorter one. -/
theorem watermark_mono (env : Env) (blocks : List Block) (s : State)
    (hw : InRange s.config.LastTimestamp) (hc : ∀ b ∈ blocks, b.Created < intMax) :
    s.config.LastTimestamp ≤ (checkBlocks env blocks s).config.LastTimestamp ∧
    (∀ n, s.config.LastTimestamp ≤ (checkBlocks env (blocks.take n) s).config.LastTimestamp) ∧
    (∀ m n, m ≤ n →
      (checkBlocks env (blocks.take m) s).config.LastTimestamp ≤
        (checkBlocks env (blocks.take n) s).config.LastTimestamp) := by
  refine ⟨?_, ?_, ?_⟩
  · rw [checkBlocks_watermark]
    exact advance_mono _ _ hw.1 (created_lt hc)
  · intro n
    rw [checkBlocks_watermark]
    exact advance_mono _ _ hw.1 (created_lt (fun b hb => hc b (List.mem_of_mem_take hb)))
  · intro m n hmn
    obtain ⟨k, rfl⟩ := Nat.exists_eq_add_of_le hmn
    rw [List.take_add, checkBlocks_append, checkBlocks_watermark env (List.take k _)]
    apply advance_mono
    · rw [checkBlocks_watermark]
      exact advance_ge_min _ _ hw.1
    · exact created_lt (fun b hb =>
        hc b (List.mem_of_mem_drop (List.mem_of_mem_take hb)))

/-- C3 (amended) at watermark 1000 and the batch `[900, 1500, 1200]`. -/
theorem watermark_mono_witness :
    (1000 : Int) ≤
      (checkBlocks (envOk []) [blk 900, blk 1500, blk 1200] (st 1000)).config.LastTimestamp :=
  (watermark_mono (envOk []) [blk 900, blk 1500, blk 1200] (st 1000)
    (by decide) (by decide)).1

/-- C4, as stated, fails: from watermark `intMax - 1` one pass over the batch
`[intMax - 1, intMax]` ends at `intMin`, a second pass over the same batch ends
at `intMax`. -/
theorem second_pass_differs :
    (checkBlocks (envOk []) [blk (intMax - 1), blk intMax]
      (st (intMax - 1))).config.LastTimestamp = intMin ∧
    (checkBlocks (envOk []) [blk (intMax - 1), blk intMax]
      (checkBlocks (envOk []) [blk (intMax - 1), blk intMax]
        (st (intMax - 1)))).config.LastTimestamp = intMax := by
  decide

/-- C4 (amended): for every initial watermark that is a valid `int` and every
batch whose `Created` values are below `intMax`, running `checkBlocks` on the
batch twice in a row leaves the same watermark (and the same configuration)
as running it once. -/
theorem checkBlocks_idempotent (env : Env) (blocks : List Block) (s : State)
    (hw : InRange s.config.LastTimestamp) (hc : ∀ b ∈ blocks, b.Created < intMax) :
    (checkBlocks env blocks (checkBlocks env blocks s)).config.LastTimestamp =
      (checkBlocks env blocks s).config.LastTimestamp ∧
    (checkBlocks env blocks (checkBlocks env blocks s)).config =
      (checkBlocks env blocks s).config := by
  have key : advance (advance s.config.LastTimestamp (blocks.map (fun b => b.Created)))
      (blocks.map (fun b => b.Created)) =
      advance s.config.LastTimestamp (blocks.map (fun b => b.Created)) :=
    advance_fixed _ _ (advance_ge_all _ _ hw.1 (created_lt hc))
  constructor
  · rw [checkBlocks_watermark, checkBlocks_watermark, key]
  · rw [checkBlocks_config env blocks (checkBlocks env blocks s), checkBlocks_config env blocks s]
    simp only [key]

/-- C4 (amended) at watermark 1000 and the batch `[1200, 1400]`. -/
theorem checkBlocks_idempotent_witness :
    (checkBlocks (envOk []) [blk 1200, blk 1400]
      (checkBlocks (envOk []) [blk 1200, blk 1400] (st 1000))).config.LastTimestamp =
      (checkBlocks (envOk []) [blk 1200, blk 1400] (st 1000)).config.LastTimestamp :=
  (checkBlocks_idempotent (envOk []) [blk 1200, blk 1400] (st 1000) (by decide) (by decide)).1

/-- C5: for every watermark `w` and every batch in which no record has
`Created > w` (in particular the empty batch), `checkBlocks` leaves the
watermark, and the whole configuration, exactly as it was. -/
theorem watermark_unchanged (env : Env) (blocks : List Block) (s : State)
    (h : ∀ b ∈ blocks, ¬ b.Created > s.config.LastTimestamp) :
    (checkBlocks env blocks s).config.LastTimestamp = s.config.LastTimestamp ∧
    (checkBlocks env blocks s).config = s.config := by
  have key : advance s.config.LastTimestamp (blocks.map (fun b => b.Created)) =
      s.config.LastTimestamp :=
    advance_fixed _ _ (created_le (fun b hb => not_lt.1 (h b hb)))
  constructor
  · rw [checkBlocks_watermark, key]
  · rw [checkBlocks_config, key]

/-- C5 at watermark 1000: the batch `[900, 1000]` and the empty batch. -/
theorem watermark_unchanged_witness :
    (checkBlocks (envOk []) [blk 900, blk 1000] (st 1000)).config.LastTimestamp = 1000 ∧
    (checkBlocks (envOk []) [] (st 1000)).config.LastTimestamp = 1000 :=
  ⟨(watermark_unchanged (envOk []) [blk 900, blk 1000] (st 1000) (by decide)).1,
   (watermark_unchanged (envOk []) [] (st 1000) (by decide)).1⟩


/-- C6: for every initial state and every batch, `checkBlocks` performs exactly
one webhook POST per record, in the order of the batch, whatever the relation
of `Created` to the watermark: the POSTs added to the trace are the images of
the records of the batch, position by position, and their number is the length
of the batch. -/
theorem notifications_in_order (env : Env) (blocks : List Block) (s : State) :
    (checkBlocks env blocks s).posts =
      s.posts ++ blocks.map (postOf env s.config.WebhookURI) ∧
    (checkBlocks env blocks s).posts.length = s.posts.length + blocks.length ∧
    (∀ i : Nat, (checkBlocks env blocks s).posts[s.posts.length + i]? =
      (blocks[i]?).map (postOf env s.config.WebhookURI)) ∧
    (∀ b : Block, (sendMessage env b s).posts = s.posts ++ [postOf env s.config.WebhookURI b]) := by
  refine ⟨checkBlocks_posts env blocks s, ?_, ?_, fun b => sendMessage_posts env b s⟩
  · rw [checkBlocks_posts, List.length_append, List.length_map]
  · intro i
    rw [checkBlocks_posts, List.getElem?_append_right (Nat.le_add_right _ _),
      Nat.add_sub_cancel_left, List.getElem?_map]

/-- C7: for every environment, every two assignments `p1`, `p2` of success or
failure to the webhook POSTs, every batch and every initial state,
`checkBlocks` attempts the same delivery for every record under both, ends
with the same configuration, and the final watermark is the value of the
watermark rule on the initial watermark and the `Created` values alone. -/
theorem delivery_failure_irrelevant (env : Env) (p1 p2 : Nat → Option GoError)
    (blocks : List Block) (s : State) :
    (checkBlocks { env with postErr := p1 } blocks s).posts =
      s.posts ++ blocks.map (postOf env s.config.WebhookURI) ∧
    (checkBlocks { env with postErr := p2 } blocks s).posts =
      (checkBlocks { env with postErr := p1 } blocks s).posts ∧
    (checkBlocks { env with postErr := p2 } blocks s).config =
      (checkBlocks { env with postErr := p1 } blocks s).config ∧
    (checkBlocks { env with postErr := p1 } blocks s).config.LastTimestamp =
      advance s.config.LastTimestamp (blocks.map (fun b => b.Created)) := by
  refine ⟨?_, ?_, ?_, ?_⟩
  · rw [checkBlocks_posts]; rfl
  · rw [checkBlocks_posts, checkBlocks_posts]; rfl
  · rw [checkBlocks_config, checkBlocks_config]
  · rw [checkBlocks_watermark]

/-- C8: when `client.Do` fails, or the response body does not decode,
`getBlocks` sends no notification and leaves the configuration (hence the
watermark) unchanged; when both succeed its result is `checkBlocks` applied to
exactly the decoded sequence. -/
theorem getBlocks_failure_skips (env : Env) (s : State) :
    (∀ err, env.fetch s.gets.length (apiRequest s.config) = .error err →
      (getBlocks env s).posts = s.posts ∧ (getBlocks env s).config = s.config) ∧
    (∀ body err, env.fetch s.gets.length (apiRequest s.config) = .ok body →
      env.decode body = .error err →
      (getBlocks env s).posts = s.posts ∧ (getBlocks env s).config = s.config) ∧
    (∀ body blocks, env.fetch s.gets.length (apiRequest s.config) = .ok body →
      env.decode body = .ok blocks →
      getBlocks env s =
        checkBlocks env blocks { s with gets := s.gets ++ [apiRequest s.config] } ∧
      (getBlocks env s).posts = s.posts ++ blocks.map (postOf env s.config.WebhookURI)) := by
  refine ⟨?_, ?_, ?_⟩
  · intro err h
    rw [getBlocks_fetch_error env s err h]
    exact ⟨rfl, rfl⟩
  · intro body err h hd
    rw [getBlocks_decode_error env s body err h hd]
    exact ⟨rfl, rfl⟩
  · intro body blocks h hd
    rw [getBlocks_ok env s body blocks h hd]
    exact ⟨rfl, checkBlocks_posts env blocks _⟩

/-- C8 on three concrete runs from watermark 1000: a transport failure, an
undecodable body, and a successful fetch of the batch `[1500]`. -/
theorem getBlocks_failure_skips_witness :
    ((getBlocks envDown (st 1000)).posts = [] ∧
      (getBlocks envDown (st 1000)).config = (st 1000).config) ∧
    ((getBlocks envGarbled (st 1000)).posts = [] ∧
      (getBlocks envGarbled (st 1000)).config = (st 1000).config) ∧
    (getBlocks (envOk [blk 1500]) (st 1000)).posts =
      [postOf (envOk [blk 1500]) "https://hook" (blk 1500)] :=
  ⟨(getBlocks_failure_skips envDown (st 1000)).1 _ rfl,
   (getBlocks_failure_skips envGarbled (st 1000)).2.1 _ _ rfl rfl,
   ((getBlocks_failure_skips (envOk [blk 1500]) (st 1000)).2.2 _ _ rfl rfl).2⟩

/-- C9: for every block record, the text `sendMessage` builds is the fixed
layout with the date string derived from `Created`, the `Email`, the `Reason`
and the `Status` inserted verbatim in that order; each of the four is a
substring of it; `sendMessage` posts exactly one request, whose body is the
JSON object with the single member `text` holding that message.  For the
record `(1500, "a@x.com", "bounce", "bounced")` the message contains
`a@x.com` and `bounced`. -/
theorem message_format (env : Env) (block : Block) (s : State) :
    message env block =
      "Failed to send mail:\nCreated at: " ++ env.timeString block.Created ++
        "\nEmail: " ++ block.Email ++ " \nReason: " ++ block.Reason ++
        "\nStatus: " ++ block.Status ++ "\n" ∧
    (Contains (message env block) (env.timeString block.Created) ∧
      Contains (message env block) block.Email ∧
      Contains (message env block) block.Reason ∧
      Contains (message env block) block.Status) ∧
    (sendMessage env block s).posts =
      s.posts ++ [⟨s.config.WebhookURI, "application/json",
        "\x7b\"text\":" ++ env.jsonQuote (message env block) ++ "\x7d"⟩] ∧
    (Contains (message env ⟨1500, "a@x.com", "bounce", "bounced"⟩) "a@x.com" ∧
      Contains (message env ⟨1500, "a@x.com", "bounce", "bounced"⟩) "bounced") := by
  have hdate : ∀ b : Block, Contains (message env b) (env.timeString b.Created) := by
    intro b
    rw [message_eq]
    iterate 7 apply contains_append_right
    exact contains_self_right _ _
  have hemail : ∀ b : Block, Contains (message env b) b.Email := by
    intro b
    rw [message_eq]
    iterate 5 apply contains_append_right
    exact contains_self_right _ _
  have hreason : ∀ b : Block, Contains (message env b) b.Reason := by
    intro b
    rw [message_eq]
    iterate 3 apply contains_append_right
    exact contains_self_right _ _
  have hstatus : ∀ b : Block, Contains (message env b) b.Status := by
    intro b
    rw [message_eq]
    iterate 1 apply contains_append_right
    exact contains_self_right _ _
  exact ⟨message_eq env block, ⟨hdate block, hemail block, hreason block, hstatus block⟩,
    sendMessage_posts env block s,
    hemail ⟨1500, "a@x.com", "bounce", "bounced"⟩,
    hstatus ⟨1500, "a@x.com", "bounce", "bounced"⟩⟩

/-- C10, as stated, fails: from watermark 0 the batch `[intMax]` has maximum
`M = intMax > 0`, yet the final watermark is `intMin`, which is neither `M` nor
`M + 1` and is below the `Created` value of the record. -/
theorem bounds_fail_at_intMax :
    (checkBlocks (envOk []) [blk intMax] (st 0)).config.LastTimestamp = intMin ∧
    (checkBlocks (envOk []) [blk intMax] (st 0)).config.LastTimestamp ≠ intMax ∧
    (checkBlocks (envOk []) [blk intMax] (st 0)).config.LastTimestamp ≠ intMax + 1 ∧
    ¬ (blk intMax).Created ≤ (checkBlocks (envOk []) [blk intMax] (st 0)).config.LastTimestamp := by
  decide

/-- C10 (amended): for every initial watermark `w` that is a valid `int` and
every non-empty batch with maximum `Created` value `M < intMax`: if `M > w` the
final watermark is `M` or `M + 1`; if `M <= w` it is `w`; it is `>=` the
`Created` value of every record of the batch; and it is either `w` or `c + 1`
for the `Created` value `c` of some record of the batch. -/
theorem watermark_bounds (env : Env) (blocks : List Block) (s : State) (M : Int)
    (hw : InRange s.config.LastTimestamp)
    (hmem : ∃ b ∈ blocks, b.Created = M) (hmax : ∀ b ∈ blocks, b.Created ≤ M)
    (hM : M < intMax) :
    (s.config.LastTimestamp < M →
      (checkBlocks env blocks s).config.LastTimestamp = M ∨
      (checkBlocks env blocks s).config.LastTimestamp = M + 1) ∧
    (M ≤ s.config.LastTimestamp →
      (checkBlocks env blocks s).config.LastTimestamp = s.config.LastTimestamp) ∧
    (∀ b ∈ blocks, b.Created ≤ (checkBlocks env blocks s).config.LastTimestamp) ∧
    ((checkBlocks env blocks s).config.LastTimestamp = s.config.LastTimestamp ∨
      ∃ b ∈ blocks, (checkBlocks env blocks s).config.LastTimestamp = b.Created + 1) := by
  have hlt : ∀ b ∈ blocks, b.Created < intMax := fun b hb => by
    have := hmax b hb
    omega
  have hge : ∀ b ∈ blocks, b.Created ≤ (checkBlocks env blocks s).config.LastTimestamp := by
    intro b hb
    rw [checkBlocks_watermark]
    exact advance_ge_all _ _ hw.1 (created_lt hlt) _ (List.mem_map.2 ⟨b, hb, rfl⟩)
  refine ⟨?_, ?_, hge, ?_⟩
  · intro hnew
    obtain ⟨b, hb, e⟩ := hmem
    have h1 := hge b hb
    have h2 : (checkBlocks env blocks s).config.LastTimestamp ≤ M + 1 := by
      rw [checkBlocks_watermark]
      exact advance_le_succ_max _ _ M hw.1 hM (created_le hmax) (by omega)
    omega
  · intro hold
    rw [checkBlocks_watermark]
    exact advance_fixed _ _ (created_le (fun b hb => le_trans (hmax b hb) hold))
  · rw [checkBlocks_watermark]
    rcases advance_mem_succ (blocks.map (fun b => b.Created)) s.config.LastTimestamp hw.1
      (created_lt hlt) with h | ⟨c, hc, h⟩
    · exact Or.inl h
    · obtain ⟨b, hb, rfl⟩ := mem_created hc
      exact Or.inr ⟨b, hb, h⟩

/-- C10 (amended) at watermark 0: the batch `[3, 4]` ends at `M = 4`, and the
batch `[4, 3]` ends at `M + 1 = 5`. -/
theorem watermark_bounds_witness :
    ((checkBlocks (envOk []) [blk 3, blk 4] (st 0)).config.LastTimestamp = 4 ∨
      (checkBlocks (envOk []) [blk 3, blk 4] (st 0)).config.LastTimestamp = 4 + 1) ∧
    (checkBlocks (envOk []) [blk 3, blk 4] (st 0)).config.LastTimestamp = 4 ∧
    (checkBlocks (envOk []) [blk 4, blk 3] (st 0)).config.LastTimestamp = 5 :=
  ⟨(watermark_bounds (envOk []) [blk 3, blk 4] (st 0) 4
      (by decide) (by decide) (by decide) (by decide)).1 (by decide),
   by decide, by decide⟩

end BlockHook
